import Mathlib

/-!
Shallow embedding of hypercorn's QUIC connection demultiplexer and event
dispatch loop (`src/hypercorn/protocol/quic.py`, class `QuicProtocol`).

External collaborators (the aioquic protocol engine, the header parser
`pull_quic_header`, the version-negotiation encoder, and the H3 session
layer) are abstracted behind an `Oracle` structure; the dispatcher's own
state — the routing-identifier registry (`self.connections`), the session
map (`self.http_connections`), the outbound datagrams handed to
`self.send`, and the deferred callbacks registered with `self.call_at` —
is modelled explicitly as `ProtoState`.  Python dictionaries are modelled
as association lists with Python dict semantics (`get` returns the value
of the unique key, assignment replaces in place or appends, `del` raises
`KeyError` on an absent key).  Python exceptions are modelled with
`Except`: the source has no try/except, so every raise propagates.
-/

namespace Hypercorn

/-- A routing identifier (QUIC connection id): an opaque byte string. -/
abbrev CID := List Nat

/-- Raw datagram payload bytes. -/
abbrev Bytes := List Nat

/-- A network address, `(host, port)` abstracted. -/
abbrev Addr := Nat × Nat

/-- Timestamps handed to and received from the engine; opaque here. -/
abbrev Time := Nat

/-- Python exceptions that the dispatcher code can raise. -/
inductive PyErr where
  | keyError (key : CID)
  | valueError
deriving Repr, DecidableEq

/-- The engine lifecycle events drained by `_handle_events`
(`aioquic.quic.events`): a closed tagged-variant type with one case per
kind the dispatcher reacts to, plus a catch-all for all other kinds. -/
inductive QuicEvent where
  | connectionTerminated
  | protocolNegotiated
  | connectionIdIssued (connection_id : CID)
  | connectionIdRetired (connection_id : CID)
  | other (tag : Nat)
deriving Repr, DecidableEq

/-- The routing header returned by `pull_quic_header`. -/
structure Header where
  version : Option Nat
  destination_cid : CID
  source_cid : CID
  packet_type : Nat
deriving Repr, DecidableEq

/-- The observable state of one engine-owned `QuicConnection`:
its host-chosen id, the pending event queue popped by `next_event`,
the outbound datagram queue drained by `datagrams_to_send`, the
`get_timer()` deadline and the `_close_at` deadline. -/
structure QCState where
  host_cid : CID
  events : List QuicEvent
  datagrams : List (Bytes × Addr)
  timer : Option Time
  close_at : Option Time
deriving Repr, DecidableEq, Inhabited

/-- The dispatcher's abstraction of an H3 session (`H3Protocol`): the
client address it was constructed with and the log of events forwarded
to its `handle` method, in order.  Its internal behaviour is external. -/
structure SessionState where
  client : Option Addr
  log : List QuicEvent
deriving Repr, DecidableEq

/-- `QuicProtocol`'s own mutable state: the registry
`self.connections : Dict[bytes, QuicConnection]` (connection handles are
indices into `conns`), the session map `self.http_connections`, the store
of engine connection states, the datagrams passed to `self.send` (in
order), and the `(deadline, connection)` callbacks registered with
`self.call_at` (in order). -/
structure ProtoState where
  connections : List (CID × Nat)
  http_connections : List (Nat × SessionState)
  conns : List QCState
  sent : List (Bytes × Addr)
  timers : List (Time × Nat)
deriving Repr, DecidableEq

/-- Behaviour of the external collaborators: the aioquic header parser
(which may raise), the supported-version set of the engine configuration,
the version-negotiation encoder, the `QuicConnection` constructor (the
state of the n-th connection created), `receive_datagram`, engine
`handle_timer`, and the scheduler clock `now()`. -/
structure Oracle where
  pullQuicHeader : Bytes → Except PyErr Header
  supportedVersions : List Nat
  encodeVNeg : CID → CID → List Nat → Bytes
  newConn : Nat → QCState
  receiveDatagram : QCState → Bytes → Addr → Time → QCState
  handleTimer : QCState → Time → QCState
  now : Time

/-- `aioquic.quic.packet.PACKET_TYPE_INITIAL`: an opaque constant tag. -/
def PACKET_TYPE_INITIAL : Nat := 192

/-- Python `dict.get`: the value stored under the key, or `None`. -/
def dictGet {α β : Type} [DecidableEq α] : List (α × β) → α → Option β
  | [], _ => none
  | (k, v) :: rest, key => if k = key then some v else dictGet rest key

/-- Python `dict[key] = value`: replace in place if present, else append. -/
def dictInsert {α β : Type} [DecidableEq α] : List (α × β) → α → β → List (α × β)
  | [], key, v => [(key, v)]
  | (k, w) :: rest, key, v =>
    if k = key then (key, v) :: rest else (k, w) :: dictInsert rest key v

/-- Python `del dict[key]`: raises `KeyError` when the key is absent. -/
def dictDel {β : Type} : List (CID × β) → CID → Except PyErr (List (CID × β))
  | [], key => .error (.keyError key)
  | (k, w) :: rest, key =>
    if k = key then .ok rest else (dictDel rest key).map (fun m => (k, w) :: m)

/-- The keys of an association-list dictionary. -/
def dictKeys {α β : Type} (m : List (α × β)) : List α := m.map Prod.fst

/-- Session-map lookup (`connection in self.http_connections` / access). -/
def sessGet (m : List (Nat × SessionState)) (k : Nat) : Option SessionState :=
  dictGet m k

/-- Session-map assignment (`self.http_connections[connection] = ...`). -/
def sessInsert (m : List (Nat × SessionState)) (k : Nat) (v : SessionState) :
    List (Nat × SessionState) :=
  dictInsert m k v

/-- The engine state of a connection handle in the store. -/
def getConn (s : ProtoState) (n : Nat) : QCState := s.conns.getD n default

/-- Replace the engine state of a connection handle in the store. -/
def setConn (s : ProtoState) (n : Nat) (c : QCState) : ProtoState :=
  { s with conns := s.conns.set n c }

/-- `QuicProtocol.send_all`: drain `connection.datagrams_to_send(now)` and
pass each `(data, address)` pair to `self.send` as an outbound `RawData`,
preserving emission order. -/
def send_all (s : ProtoState) (conn : Nat) : ProtoState :=
  let c := getConn s conn
  { s with
    sent := s.sent ++ c.datagrams,
    conns := s.conns.set conn { c with datagrams := [] } }

/-- The per-kind reaction of `_handle_events` for one event, before any
forwarding: `ConnectionTerminated` does nothing, `ProtocolNegotiated`
constructs an `H3Protocol` (recording the client address) and assigns it
into the session map, `ConnectionIdIssued` inserts a registry entry,
`ConnectionIdRetired` deletes one (raising `KeyError` if absent), and all
other kinds have no reaction. -/
def handle_event_reaction (s : ProtoState) (conn : Nat) (client : Option Addr)
    (e : QuicEvent) : Except PyErr ProtoState :=
  match e with
  | .connectionTerminated => .ok s
  | .protocolNegotiated =>
    .ok { s with http_connections := sessInsert s.http_connections conn ⟨client, []⟩ }
  | .connectionIdIssued cid =>
    .ok { s with connections := dictInsert s.connections cid conn }
  | .connectionIdRetired cid =>
    match dictDel s.connections cid with
    | .error err => .error err
    | .ok m => .ok { s with connections := m }
  | .other _ => .ok s

/-- After the per-kind reaction: if a session exists for the connection,
forward the event to it (append to its log); otherwise do nothing. -/
def forward_event (s : ProtoState) (conn : Nat) (e : QuicEvent) : ProtoState :=
  match sessGet s.http_connections conn with
  | none => s
  | some sess =>
    { s with http_connections :=
        sessInsert s.http_connections conn ⟨sess.client, sess.log ++ [e]⟩ }

/-- The `while event is not None` loop of `_handle_events`, run on the
snapshot of the connection's pending event queue: each iteration pops the
next event from the queue (`connection.next_event()`), applies the
per-kind reaction (a raise aborts the loop and propagates), then forwards
the event to the session if one exists at that point. -/
def drainLoop (O : Oracle) (conn : Nat) (client : Option Addr) :
    List QuicEvent → ProtoState → Except PyErr ProtoState
  | [], s => .ok s
  | e :: rest, s =>
    let s0 := setConn s conn { getConn s conn with events := rest }
    match handle_event_reaction s0 conn client e with
    | .error err => .error err
    | .ok s1 => drainLoop O conn client rest (forward_event s1 conn e)

/-- After a drained batch: query `connection.get_timer()` and, if it is
non-none, register exactly one deferred callback via `self.call_at`. -/
def scheduleTimer (s : ProtoState) (conn : Nat) : ProtoState :=
  match (getConn s conn).timer with
  | none => s
  | some t => { s with timers := s.timers ++ [(t, conn)] }

/-- `QuicProtocol._handle_events`: drain the engine's event queue for the
connection, then flush outbound datagrams (`send_all`), then query the
next wake deadline and schedule the timer callback. -/
def handle_events (O : Oracle) (s : ProtoState) (conn : Nat)
    (client : Option Addr) : Except PyErr ProtoState :=
  match drainLoop O conn client (getConn s conn).events s with
  | .error e => .error e
  | .ok s' => .ok (scheduleTimer (send_all s' conn) conn)

/-- Deliver a datagram into the engine for a connection
(`connection.receive_datagram(event.data, event.address, now=self.now())`)
and run the event dispatcher with the datagram's source address. -/
def feed (O : Oracle) (s : ProtoState) (cn : Nat) (data : Bytes)
    (address : Addr) : Except PyErr ProtoState :=
  handle_events O (setConn s cn (O.receiveDatagram (getConn s cn) data address O.now))
    cn (some address)

/-- The registry-resolution step of `handle` for a datagram whose header
parsed and whose version is supported (or absent): look up the
destination id; if absent and the packet type is initial, create a new
connection and insert two registry entries (the client-chosen destination
id and the new connection's host id); if a connection was found or
created, feed it the datagram, otherwise drop. -/
def handleRawKnown (O : Oracle) (s : ProtoState) (header : Header)
    (data : Bytes) (address : Addr) : Except PyErr ProtoState :=
  match dictGet s.connections header.destination_cid with
  | some cn => feed O s cn data address
  | none =>
    if header.packet_type = PACKET_TYPE_INITIAL then
      let cn := s.conns.length
      let c0 := O.newConn cn
      let s' := { s with
        conns := s.conns ++ [c0],
        connections :=
          dictInsert (dictInsert s.connections header.destination_cid cn)
            c0.host_cid cn }
      feed O s' cn data address
    else .ok s

/-- Whether the parsed header carries an explicit version outside the
engine's supported-version set
(`header.version is not None and header.version not in supported_versions`). -/
def versionUnsupported (O : Oracle) (h : Header) : Bool :=
  match h.version with
  | none => false
  | some v => decide (v ∉ O.supportedVersions)

/-- The input events consumed by `QuicProtocol.handle`. -/
inductive Event where
  | rawData (data : Bytes) (address : Addr)
  | closed

/-- `QuicProtocol.handle`: on `RawData`, parse the header (a parse raise
propagates — there is no try/except), answer unsupported versions with a
negotiation datagram built from the swapped header ids, otherwise resolve
or create the connection and dispatch; `Closed` is an explicit no-op. -/
def handle (O : Oracle) (s : ProtoState) (ev : Event) : Except PyErr ProtoState :=
  match ev with
  | .closed => .ok s
  | .rawData data address =>
    match O.pullQuicHeader data with
    | .error e => .error e
    | .ok header =>
      if versionUnsupported O header then
        .ok { s with sent := s.sent ++
          [(O.encodeVNeg header.destination_cid header.source_cid
              O.supportedVersions, address)] }
      else handleRawKnown O s header data address

/-- `QuicProtocol._handle_timer`: when the deferred callback fires, check
`connection._close_at`; if the connection no longer has an active
deadline the callback is a no-op, otherwise invoke the engine's
`handle_timer(now=self.now())` and re-run the event dispatcher with no
client address. -/
def handle_timer (O : Oracle) (s : ProtoState) (conn : Nat) :
    Except PyErr ProtoState :=
  match (getConn s conn).close_at with
  | none => .ok s
  | some _ =>
    handle_events O (setConn s conn (O.handleTimer (getConn s conn) O.now)) conn none

/-- Whether an `Except` result is a normal (non-raising) completion. -/
def exceptOk {α : Type} : Except PyErr α → Bool
  | .ok _ => true
  | .error _ => false

/-- The suffix of an event list starting at its last `protocolNegotiated`
event, or `none` when the list has no such event.  Since a later
`ProtocolNegotiated` replaces the session, the session that exists after
a drain received exactly this suffix. -/
def lastNegotiatedSuffix : List QuicEvent → Option (List QuicEvent)
  | [] => none
  | e :: rest =>
    match lastNegotiatedSuffix rest with
    | some suf => some suf
    | none => if e = QuicEvent.protocolNegotiated then some (e :: rest) else none

/-- A concrete oracle used to exercise the dispatcher on closed inputs:
an empty payload fails to parse; a payload starting with 9 parses to a
header with unsupported version 9; one starting with 1 parses to a
supported initial packet; one starting with 2 parses to a supported
non-initial packet. -/
def O0 : Oracle where
  pullQuicHeader := fun data =>
    match data with
    | [] => .error .valueError
    | 9 :: _ => .ok ⟨some 9, [1, 2], [3, 4], 0⟩
    | 1 :: _ => .ok ⟨some 1, [1, 2], [3, 4], PACKET_TYPE_INITIAL⟩
    | _ => .ok ⟨some 1, [1, 2], [3, 4], 0⟩
  supportedVersions := [1]
  encodeVNeg := fun a b vs => a ++ b ++ vs
  newConn := fun n => ⟨[5, n], [], [], none, none⟩
  receiveDatagram := fun c _ _ _ => c
  handleTimer := fun c _ => c
  now := 0

/-- The dispatcher state at startup: empty registry, no sessions, no
connections, nothing sent, nothing scheduled. -/
def init : ProtoState := ⟨[], [], [], [], []⟩

/-- A state with a live session (client `(9, 9)`, nonempty log) for
connection 0 and a further `protocolNegotiated` event queued. -/
def stLive : ProtoState :=
  ⟨[], [(0, ⟨some (9, 9), [QuicEvent.other 7]⟩)],
   [⟨[], [QuicEvent.protocolNegotiated], [], none, none⟩], [], []⟩

/-- The state obtained from `stLive` after draining the duplicate
`protocolNegotiated`: the live session has been silently replaced. -/
def stLive' : ProtoState :=
  ⟨[], [(0, ⟨none, [QuicEvent.protocolNegotiated]⟩)],
   [⟨[], [], [], none, none⟩], [], []⟩

/-- A state with a connection queueing `protocolNegotiated` followed by
`connectionIdIssued [3]`. -/
def stW : ProtoState :=
  ⟨[], [], [⟨[], [QuicEvent.protocolNegotiated,
    QuicEvent.connectionIdIssued [3]], [], none, none⟩], [], []⟩

/-- The state obtained from `stW` after draining its queue with client
address `(2, 3)`. -/
def stW' : ProtoState :=
  ⟨[([3], 0)], [(0, ⟨some (2, 3), [QuicEvent.protocolNegotiated,
    QuicEvent.connectionIdIssued [3]]⟩)],
   [⟨[], [], [], none, none⟩], [], []⟩

/-- A state with a connection queueing an issue of identifier `[4]`
followed by its retirement. -/
def stIR : ProtoState :=
  ⟨[], [], [⟨[], [QuicEvent.connectionIdIssued [4],
    QuicEvent.connectionIdRetired [4]], [], none, none⟩], [], []⟩

/-- The state obtained from `stIR` after draining its queue. -/
def stIR' : ProtoState :=
  ⟨[], [], [⟨[], [], [], none, none⟩], [], []⟩

/-- The state obtained from `stTimerNeg` after its timer callback fires:
a session with client `none` was created on the timer path. -/
def stTimerNeg' : ProtoState :=
  ⟨[], [(0, ⟨none, [QuicEvent.protocolNegotiated]⟩)],
   [⟨[], [], [], none, some 3⟩], [], []⟩

/-- A state with one live connection holding a queued outbound datagram,
a pending wake deadline of 5, and no close deadline. -/
def stTimer : ProtoState :=
  ⟨[], [], [⟨[], [], [([7], (1, 1))], some 5, none⟩], [], []⟩

/-- A state with one live connection whose engine queue retires an
identifier that is absent from the registry. -/
def stBadRetire : ProtoState :=
  ⟨[], [], [⟨[], [QuicEvent.connectionIdRetired [9, 9]], [], none, none⟩], [], []⟩

/-- A state with one live connection with an active close deadline whose
engine queue holds a `protocolNegotiated` event: firing the timer will
create a session on the timer path. -/
def stTimerNeg : ProtoState :=
  ⟨[], [], [⟨[], [QuicEvent.protocolNegotiated], [], none, some 3⟩], [], []⟩

/-! ### Dictionary lemmas -/

lemma dictKeys_nil {α β : Type} : dictKeys ([] : List (α × β)) = [] := rfl

lemma dictKeys_cons {α β : Type} (a : α) (b : β) (m : List (α × β)) :
    dictKeys ((a, b) :: m) = a :: dictKeys m := rfl

lemma dictGet_none_of_not_mem {α β : Type} [DecidableEq α]
    (m : List (α × β)) (k : α) (h : k ∉ dictKeys m) : dictGet m k = none := by
  induction m with
  | nil => rfl
  | cons p rest ih =>
    obtain ⟨a, b⟩ := p
    rw [dictKeys_cons, List.mem_cons, not_or] at h
    show (if a = k then some b else dictGet rest k) = none
    rw [if_neg (Ne.symm h.1)]
    exact ih h.2

lemma mem_keys_of_dictGet_some {α β : Type} [DecidableEq α]
    (m : List (α × β)) (k : α) (v : β) (h : dictGet m k = some v) :
    k ∈ dictKeys m := by
  induction m with
  | nil => simp [dictGet] at h
  | cons p rest ih =>
    obtain ⟨a, b⟩ := p
    rw [dictKeys_cons, List.mem_cons]
    rw [show dictGet ((a, b) :: rest) k =
      (if a = k then some b else dictGet rest k) from rfl] at h
    by_cases hak : a = k
    · exact Or.inl hak.symm
    · rw [if_neg hak] at h
      exact Or.inr (ih h)

lemma dictGet_append {α β : Type} [DecidableEq α]
    (m m' : List (α × β)) (k : α) :
    dictGet (m ++ m') k =
      (match dictGet m k with
       | some v => some v
       | none => dictGet m' k) := by
  induction m with
  | nil => simp [dictGet]
  | cons p rest ih =>
    obtain ⟨a, b⟩ := p
    by_cases hak : a = k
    · simp [dictGet, hak]
    · simp [dictGet, hak, ih]

lemma dictInsert_absent {α β : Type} [DecidableEq α]
    (m : List (α × β)) (k : α) (v : β) (h : dictGet m k = none) :
    dictInsert m k v = m ++ [(k, v)] := by
  induction m with
  | nil => rfl
  | cons p rest ih =>
    obtain ⟨a, b⟩ := p
    rw [show dictGet ((a, b) :: rest) k =
      (if a = k then some b else dictGet rest k) from rfl] at h
    by_cases hak : a = k
    · rw [if_pos hak] at h
      exact absurd h (by simp)
    · rw [if_neg hak] at h
      show (if a = k then (k, v) :: rest else (a, b) :: dictInsert rest k v) = _
      rw [if_neg hak, ih h]
      rfl

lemma dictGet_dictInsert_self {α β : Type} [DecidableEq α]
    (m : List (α × β)) (k : α) (v : β) :
    dictGet (dictInsert m k v) k = some v := by
  induction m with
  | nil => simp [dictInsert, dictGet]
  | cons p rest ih =>
    obtain ⟨a, b⟩ := p
    by_cases hak : a = k
    · simp [dictInsert, dictGet, hak]
    · simp [dictInsert, dictGet, hak, ih]

lemma dictGet_dictInsert_ne {α β : Type} [DecidableEq α]
    (m : List (α × β)) (k n : α) (v : β) (h : n ≠ k) :
    dictGet (dictInsert m k v) n = dictGet m n := by
  induction m with
  | nil => simp [dictInsert, dictGet, if_neg (Ne.symm h)]
  | cons p rest ih =>
    obtain ⟨a, b⟩ := p
    by_cases hak : a = k
    · simp [dictInsert, dictGet, hak, if_neg (Ne.symm h), if_pos]
    · by_cases han : a = n
      · subst han
        simp [dictInsert, dictGet, hak]
      · simp [dictInsert, dictGet, hak, han, ih]

lemma mem_keys_dictInsert {α β : Type} [DecidableEq α]
    (m : List (α × β)) (k x : α) (v : β)
    (h : x ∈ dictKeys (dictInsert m k v)) : x = k ∨ x ∈ dictKeys m := by
  induction m with
  | nil =>
    rw [show dictInsert ([] : List (α × β)) k v = [(k, v)] from rfl,
      dictKeys_cons, dictKeys_nil, List.mem_cons] at h
    rcases h with h | h
    · exact Or.inl h
    · simp at h
  | cons p rest ih =>
    obtain ⟨a, b⟩ := p
    rw [dictKeys_cons]
    by_cases hak : a = k
    · rw [show dictInsert ((a, b) :: rest) k v =
        (if a = k then (k, v) :: rest else (a, b) :: dictInsert rest k v)
        from rfl, if_pos hak, dictKeys_cons, List.mem_cons] at h
      rcases h with h | h
      · exact Or.inl h
      · exact Or.inr (List.mem_cons_of_mem a h)
    · rw [show dictInsert ((a, b) :: rest) k v =
        (if a = k then (k, v) :: rest else (a, b) :: dictInsert rest k v)
        from rfl, if_neg hak, dictKeys_cons, List.mem_cons] at h
      rcases h with h | h
      · exact Or.inr (by rw [h]; exact List.mem_cons_self a _)
      · rcases ih h with h' | h'
        · exact Or.inl h'
        · exact Or.inr (List.mem_cons_of_mem a h')

lemma nodup_dictInsert {α β : Type} [DecidableEq α]
    (m : List (α × β)) (k : α) (v : β) (h : (dictKeys m).Nodup) :
    (dictKeys (dictInsert m k v)).Nodup := by
  induction m with
  | nil => simp [dictInsert, dictKeys]
  | cons p rest ih =>
    obtain ⟨a, b⟩ := p
    rw [dictKeys_cons, List.nodup_cons] at h
    by_cases hak : a = k
    · rw [show dictInsert ((a, b) :: rest) k v =
        (if a = k then (k, v) :: rest else (a, b) :: dictInsert rest k v)
        from rfl, if_pos hak, dictKeys_cons, List.nodup_cons]
      exact ⟨by rw [← hak]; exact h.1, h.2⟩
    · rw [show dictInsert ((a, b) :: rest) k v =
        (if a = k then (k, v) :: rest else (a, b) :: dictInsert rest k v)
        from rfl, if_neg hak, dictKeys_cons, List.nodup_cons]
      refine ⟨fun hmem => ?_, ih h.2⟩
      rcases mem_keys_dictInsert rest k a v hmem with h' | h'
      · exact hak h'
      · exact h.1 h'

lemma dictDel_ok_get {β : Type} (m : List (CID × β)) (k : CID)
    (m' : List (CID × β)) (h : dictDel m k = .ok m') :
    ∃ v, dictGet m k = some v := by
  induction m generalizing m' with
  | nil => simp [dictDel] at h
  | cons p rest ih =>
    obtain ⟨a, b⟩ := p
    by_cases hak : a = k
    · exact ⟨b, by simp [dictGet, hak]⟩
    · rw [show dictDel ((a, b) :: rest) k =
        (if a = k then .ok rest
         else (dictDel rest k).map (fun m => (a, b) :: m)) from rfl,
        if_neg hak] at h
      cases hd : dictDel rest k with
      | error e => rw [hd] at h; simp [Except.map] at h
      | ok m'' =>
        obtain ⟨v, hv⟩ := ih m'' hd
        exact ⟨v, by simp [dictGet, hak, hv]⟩

lemma dictDel_absent {β : Type} (m : List (CID × β)) (k : CID)
    (h : dictGet m k = none) : dictDel m k = .error (.keyError k) := by
  induction m with
  | nil => rfl
  | cons p rest ih =>
    obtain ⟨a, b⟩ := p
    rw [show dictGet ((a, b) :: rest) k =
      (if a = k then some b else dictGet rest k) from rfl] at h
    by_cases hak : a = k
    · rw [if_pos hak] at h
      exact absurd h (by simp)
    · rw [if_neg hak] at h
      rw [show dictDel ((a, b) :: rest) k =
        (if a = k then .ok rest
         else (dictDel rest k).map (fun m => (a, b) :: m)) from rfl,
        if_neg hak, ih h]
      rfl

lemma mem_keys_dictDel {β : Type} (m m' : List (CID × β)) (k x : CID)
    (h : dictDel m k = .ok m') (hx : x ∈ dictKeys m') : x ∈ dictKeys m := by
  induction m generalizing m' with
  | nil => simp [dictDel] at h
  | cons p rest ih =>
    obtain ⟨a, b⟩ := p
    rw [show dictDel ((a, b) :: rest) k =
      (if a = k then .ok rest
       else (dictDel rest k).map (fun m => (a, b) :: m)) from rfl] at h
    rw [dictKeys_cons, List.mem_cons]
    by_cases hak : a = k
    · rw [if_pos hak, Except.ok.injEq] at h
      subst h
      exact Or.inr hx
    · rw [if_neg hak] at h
      cases hd : dictDel rest k with
      | error e => rw [hd] at h; simp [Except.map] at h
      | ok m'' =>
        rw [hd] at h
        simp only [Except.map, Except.ok.injEq] at h
        subst h
        rw [dictKeys_cons, List.mem_cons] at hx
        rcases hx with hx | hx
        · exact Or.inl hx
        · exact Or.inr (ih m'' hd hx)

lemma nodup_dictDel {β : Type} (m m' : List (CID × β)) (k : CID)
    (hn : (dictKeys m).Nodup) (h : dictDel m k = .ok m') :
    (dictKeys m').Nodup := by
  induction m generalizing m' with
  | nil => simp [dictDel] at h
  | cons p rest ih =>
    obtain ⟨a, b⟩ := p
    rw [dictKeys_cons, List.nodup_cons] at hn
    rw [show dictDel ((a, b) :: rest) k =
      (if a = k then .ok rest
       else (dictDel rest k).map (fun m => (a, b) :: m)) from rfl] at h
    by_cases hak : a = k
    · rw [if_pos hak, Except.ok.injEq] at h
      subst h
      exact hn.2
    · rw [if_neg hak] at h
      cases hd : dictDel rest k with
      | error e => rw [hd] at h; simp [Except.map] at h
      | ok m'' =>
        rw [hd] at h
        simp only [Except.map, Except.ok.injEq] at h
        subst h
        rw [dictKeys_cons, List.nodup_cons]
        exact ⟨fun hmem => hn.1 (mem_keys_dictDel rest m'' k a hd hmem),
          ih m'' hn.2 hd⟩

lemma dictDel_get_none {β : Type} (m m' : List (CID × β)) (k : CID)
    (hn : (dictKeys m).Nodup) (h : dictDel m k = .ok m') :
    dictGet m' k = none := by
  induction m generalizing m' with
  | nil => simp [dictDel] at h
  | cons p rest ih =>
    obtain ⟨a, b⟩ := p
    rw [dictKeys_cons, List.nodup_cons] at hn
    rw [show dictDel ((a, b) :: rest) k =
      (if a = k then .ok rest
       else (dictDel rest k).map (fun m => (a, b) :: m)) from rfl] at h
    by_cases hak : a = k
    · rw [if_pos hak, Except.ok.injEq] at h
      subst h
      subst hak
      exact dictGet_none_of_not_mem rest a hn.1
    · rw [if_neg hak] at h
      cases hd : dictDel rest k with
      | error e => rw [hd] at h; simp [Except.map] at h
      | ok m'' =>
        rw [hd] at h
        simp only [Except.map, Except.ok.injEq] at h
        subst h
        simp [dictGet, hak, ih m'' hn.2 hd]

lemma dictGet_unique {α β : Type} [DecidableEq α]
    (m : List (α × β)) (k : α) (v1 v2 : β) (hn : (dictKeys m).Nodup)
    (h1 : (k, v1) ∈ m) (h2 : (k, v2) ∈ m) : v1 = v2 := by
  induction m with
  | nil => simp at h1
  | cons p rest ih =>
    obtain ⟨a, b⟩ := p
    rw [dictKeys_cons, List.nodup_cons] at hn
    rw [List.mem_cons, Prod.mk.injEq] at h1 h2
    rcases h1 with ⟨hk1, hv1⟩ | h1
    · rcases h2 with ⟨hk2, hv2⟩ | h2
      · rw [hv1, hv2]
      · have hmem : k ∈ dictKeys rest := List.mem_map_of_mem Prod.fst h2
        rw [hk1] at hmem
        exact absurd hmem hn.1
    · rcases h2 with ⟨hk2, hv2⟩ | h2
      · have hmem : k ∈ dictKeys rest := List.mem_map_of_mem Prod.fst h1
        rw [hk2] at hmem
        exact absurd hmem hn.1
      · exact ih hn.2 h1 h2

/-! ### Dispatcher lemmas -/

lemma setConn_http (s : ProtoState) (n : Nat) (c : QCState) :
    (setConn s n c).http_connections = s.http_connections := rfl

lemma setConn_connections (s : ProtoState) (n : Nat) (c : QCState) :
    (setConn s n c).connections = s.connections := rfl

lemma forward_event_connections (s : ProtoState) (conn : Nat) (e : QuicEvent) :
    (forward_event s conn e).connections = s.connections := by
  unfold forward_event
  cases sessGet s.http_connections conn <;> rfl

lemma forward_event_http (s : ProtoState) (conn : Nat) (e : QuicEvent) :
    sessGet (forward_event s conn e).http_connections conn =
      (sessGet s.http_connections conn).map
        (fun ss => SessionState.mk ss.client (ss.log ++ [e])) := by
  show dictGet (forward_event s conn e).http_connections conn =
    (dictGet s.http_connections conn).map
      (fun ss => SessionState.mk ss.client (ss.log ++ [e]))
  cases hs : dictGet s.http_connections conn with
  | none => simp [forward_event, sessGet, hs]
  | some sess =>
    simp [forward_event, sessGet, hs, sessInsert, dictGet_dictInsert_self]

lemma forward_event_http_ne (s : ProtoState) (conn : Nat) (e : QuicEvent)
    (n : Nat) (h : n ≠ conn) :
    sessGet (forward_event s conn e).http_connections n =
      sessGet s.http_connections n := by
  show dictGet (forward_event s conn e).http_connections n =
    dictGet s.http_connections n
  cases hs : dictGet s.http_connections conn with
  | none => simp [forward_event, sessGet, hs]
  | some sess =>
    simp [forward_event, sessGet, hs, sessInsert,
      dictGet_dictInsert_ne s.http_connections conn n _ h]

lemma reaction_neg_eq (s : ProtoState) (conn : Nat) (client : Option Addr) :
    handle_event_reaction s conn client QuicEvent.protocolNegotiated =
      Except.ok { s with
        http_connections := sessInsert s.http_connections conn ⟨client, []⟩ } :=
  rfl

lemma reaction_http_of_ne_neg (s s1 : ProtoState) (conn : Nat)
    (client : Option Addr) (e : QuicEvent) (hne : e ≠ .protocolNegotiated)
    (h : handle_event_reaction s conn client e = .ok s1) :
    s1.http_connections = s.http_connections := by
  cases e with
  | connectionTerminated =>
    simp only [handle_event_reaction, Except.ok.injEq] at h
    rw [← h]
  | protocolNegotiated => exact absurd rfl hne
  | connectionIdIssued cid =>
    simp only [handle_event_reaction, Except.ok.injEq] at h
    rw [← h]
  | connectionIdRetired cid =>
    simp only [handle_event_reaction] at h
    cases hd : dictDel s.connections cid with
    | error err => rw [hd] at h; exact absurd h (by simp)
    | ok m =>
      rw [hd] at h
      simp only [Except.ok.injEq] at h
      rw [← h]
  | other tag =>
    simp only [handle_event_reaction, Except.ok.injEq] at h
    rw [← h]

lemma reaction_nodup (s s1 : ProtoState) (conn : Nat) (client : Option Addr)
    (e : QuicEvent) (h : handle_event_reaction s conn client e = .ok s1)
    (hn : (dictKeys s.connections).Nodup) :
    (dictKeys s1.connections).Nodup := by
  cases e with
  | connectionTerminated =>
    simp only [handle_event_reaction, Except.ok.injEq] at h
    rw [← h]; exact hn
  | protocolNegotiated =>
    simp only [handle_event_reaction, Except.ok.injEq] at h
    rw [← h]; exact hn
  | connectionIdIssued cid =>
    simp only [handle_event_reaction, Except.ok.injEq] at h
    rw [← h]
    exact nodup_dictInsert s.connections cid conn hn
  | connectionIdRetired cid =>
    simp only [handle_event_reaction] at h
    cases hd : dictDel s.connections cid with
    | error err => rw [hd] at h; exact absurd h (by simp)
    | ok m =>
      rw [hd] at h
      simp only [Except.ok.injEq] at h
      rw [← h]
      exact nodup_dictDel s.connections m cid hn hd
  | other tag =>
    simp only [handle_event_reaction, Except.ok.injEq] at h
    rw [← h]; exact hn

lemma lastNegotiatedSuffix_cons_neg (rest : List QuicEvent) :
    lastNegotiatedSuffix (QuicEvent.protocolNegotiated :: rest) =
      (match lastNegotiatedSuffix rest with
       | some suf => some suf
       | none => some (QuicEvent.protocolNegotiated :: rest)) := by
  simp [lastNegotiatedSuffix]

lemma lastNegotiatedSuffix_cons_ne (e : QuicEvent) (rest : List QuicEvent)
    (h : e ≠ QuicEvent.protocolNegotiated) :
    lastNegotiatedSuffix (e :: rest) = lastNegotiatedSuffix rest := by
  cases hl : lastNegotiatedSuffix rest <;> simp [lastNegotiatedSuffix, hl, h]

lemma drain_sess (O : Oracle) (conn : Nat) (client : Option Addr)
    (evs : List QuicEvent) :
    ∀ s s' : ProtoState, drainLoop O conn client evs s = .ok s' →
      sessGet s'.http_connections conn =
        (match lastNegotiatedSuffix evs with
         | some suf => some ⟨client, suf⟩
         | none => (sessGet s.http_connections conn).map
             (fun ss => SessionState.mk ss.client (ss.log ++ evs))) := by
  induction evs with
  | nil =>
    intro s s' h
    simp only [drainLoop, Except.ok.injEq] at h
    subst h
    cases sessGet s.http_connections conn <;> simp [lastNegotiatedSuffix]
  | cons e rest ih =>
    intro s s' h
    simp only [drainLoop] at h
    cases hr : handle_event_reaction
        (setConn s conn { getConn s conn with events := rest })
        conn client e with
    | error err => rw [hr] at h; exact absurd h (by simp)
    | ok s1 =>
      rw [hr] at h
      have hih := ih (forward_event s1 conn e) s' h
      simp only [forward_event_http] at hih
      by_cases hne : e = QuicEvent.protocolNegotiated
      · subst hne
        rw [reaction_neg_eq] at hr
        simp only [Except.ok.injEq] at hr
        have hs1 : sessGet s1.http_connections conn = some ⟨client, []⟩ := by
          rw [← hr]
          exact dictGet_dictInsert_self _ _ _
        rw [lastNegotiatedSuffix_cons_neg]
        cases hl : lastNegotiatedSuffix rest with
        | some suf =>
          simp only [hl] at hih ⊢
          exact hih
        | none =>
          simp only [hl, hs1] at hih ⊢
          simpa using hih
      · have hhttp : s1.http_connections = s.http_connections := by
          have h2 := reaction_http_of_ne_neg
            (setConn s conn { getConn s conn with events := rest })
            s1 conn client e hne hr
          rw [h2]
          rfl
        rw [lastNegotiatedSuffix_cons_ne e rest hne]
        simp only [hhttp] at hih
        cases hl : lastNegotiatedSuffix rest with
        | some suf =>
          simp only [hl] at hih ⊢
          exact hih
        | none =>
          simp only [hl] at hih ⊢
          cases hs : sessGet s.http_connections conn with
          | none => simp only [hs] at hih ⊢; simpa using hih
          | some ss => simp only [hs] at hih ⊢; simpa using hih

lemma drain_sess_other (O : Oracle) (conn : Nat) (client : Option Addr)
    (evs : List QuicEvent) :
    ∀ s s' : ProtoState, drainLoop O conn client evs s = .ok s' →
      ∀ n, n ≠ conn →
        sessGet s'.http_connections n = sessGet s.http_connections n := by
  induction evs with
  | nil =>
    intro s s' h n hn
    simp only [drainLoop, Except.ok.injEq] at h
    subst h
    rfl
  | cons e rest ih =>
    intro s s' h n hn
    simp only [drainLoop] at h
    cases hr : handle_event_reaction
        (setConn s conn { getConn s conn with events := rest })
        conn client e with
    | error err => rw [hr] at h; exact absurd h (by simp)
    | ok s1 =>
      rw [hr] at h
      have hih := ih (forward_event s1 conn e) s' h n hn
      rw [forward_event_http_ne s1 conn e n hn] at hih
      by_cases hne : e = QuicEvent.protocolNegotiated
      · subst hne
        rw [reaction_neg_eq] at hr
        simp only [Except.ok.injEq] at hr
        rw [hih, ← hr]
        exact dictGet_dictInsert_ne s.http_connections conn n _ hn
      · have hhttp : s1.http_connections = s.http_connections := by
          have h2 := reaction_http_of_ne_neg
            (setConn s conn { getConn s conn with events := rest })
            s1 conn client e hne hr
          rw [h2]
          rfl
        rw [hih, hhttp]

lemma drain_nodup (O : Oracle) (conn : Nat) (client : Option Addr)
    (evs : List QuicEvent) :
    ∀ s s' : ProtoState, drainLoop O conn client evs s = .ok s' →
      (dictKeys s.connections).Nodup → (dictKeys s'.connections).Nodup := by
  induction evs with
  | nil =>
    intro s s' h hn
    simp only [drainLoop, Except.ok.injEq] at h
    subst h
    exact hn
  | cons e rest ih =>
    intro s s' h hn
    simp only [drainLoop] at h
    cases hr : handle_event_reaction
        (setConn s conn { getConn s conn with events := rest })
        conn client e with
    | error err => rw [hr] at h; exact absurd h (by simp)
    | ok s1 =>
      rw [hr] at h
      refine ih (forward_event s1 conn e) s' h ?_
      rw [forward_event_connections]
      exact reaction_nodup
        (setConn s conn { getConn s conn with events := rest })
        s1 conn client e hr hn

lemma lastNegotiatedSuffix_eq_none (evs : List QuicEvent) :
    lastNegotiatedSuffix evs = none ↔
      QuicEvent.protocolNegotiated ∉ evs := by
  induction evs with
  | nil => simp [lastNegotiatedSuffix]
  | cons e rest ih =>
    cases hl : lastNegotiatedSuffix rest with
    | some suf =>
      have hmem : QuicEvent.protocolNegotiated ∈ rest := by
        by_contra hc
        rw [ih.mpr hc] at hl
        exact absurd hl (by simp)
      simp [lastNegotiatedSuffix, hl, hmem]
    | none =>
      have hnm : QuicEvent.protocolNegotiated ∉ rest := ih.mp hl
      by_cases he : e = QuicEvent.protocolNegotiated
      · simp [lastNegotiatedSuffix, hl, he]
      · simp [lastNegotiatedSuffix, hl, he, hnm, Ne.symm he]

lemma send_all_http (s : ProtoState) (conn : Nat) :
    (send_all s conn).http_connections = s.http_connections := rfl

lemma scheduleTimer_http (s : ProtoState) (conn : Nat) :
    (scheduleTimer s conn).http_connections = s.http_connections := by
  unfold scheduleTimer
  cases (getConn s conn).timer <;> rfl

lemma drain_client (O : Oracle) (conn : Nat) (client : Option Addr)
    (evs : List QuicEvent) (s s' : ProtoState)
    (h : drainLoop O conn client evs s = .ok s') (n : Nat)
    (sess : SessionState) (hs : sessGet s'.http_connections n = some sess) :
    (∃ sess0, sessGet s.http_connections n = some sess0 ∧
      sess0.client = sess.client) ∨ sess.client = client := by
  by_cases hn : n = conn
  · subst hn
    have hd := drain_sess O n client evs s s' h
    cases hl : lastNegotiatedSuffix evs with
    | some suf =>
      simp only [hl] at hd
      rw [hd] at hs
      simp only [Option.some.injEq] at hs
      right
      rw [← hs]
    | none =>
      simp only [hl] at hd
      cases hpre : sessGet s.http_connections n with
      | none =>
        rw [hpre] at hd
        simp only [Option.map_none'] at hd
        rw [hd] at hs
        exact absurd hs (by simp)
      | some ss0 =>
        rw [hpre] at hd
        simp only [Option.map_some'] at hd
        rw [hd] at hs
        simp only [Option.some.injEq] at hs
        left
        exact ⟨ss0, rfl, by rw [← hs]⟩
  · rw [drain_sess_other O conn client evs s s' h n hn] at hs
    exact Or.inl ⟨sess, hs, rfl⟩

lemma handle_events_client (O : Oracle) (s : ProtoState) (conn : Nat)
    (client : Option Addr) (s' : ProtoState)
    (h : handle_events O s conn client = .ok s') (n : Nat)
    (sess : SessionState) (hs : sessGet s'.http_connections n = some sess) :
    (∃ sess0, sessGet s.http_connections n = some sess0 ∧
      sess0.client = sess.client) ∨ sess.client = client := by
  unfold handle_events at h
  cases hd : drainLoop O conn client (getConn s conn).events s with
  | error e => rw [hd] at h; exact absurd h (by simp)
  | ok sd =>
    rw [hd] at h
    simp only [Except.ok.injEq] at h
    rw [← h, scheduleTimer_http, send_all_http] at hs
    exact drain_client O conn client (getConn s conn).events s sd hd n sess hs

lemma getD_append_length {α : Type} (l : List α) (x d : α) :
    (l ++ [x]).getD l.length d = x := by
  induction l with
  | nil => rfl
  | cons a t ih => simp [ih]

lemma set_append_length {α : Type} (l : List α) (x y : α) :
    (l ++ [x]).set l.length y = l ++ [y] := by
  induction l with
  | nil => rfl
  | cons a t ih => simp [List.set, ih]

/-! ### Claim theorems -/

/-- C1 (counterexample): the claim says that a `RawData` event whose
payload cannot be parsed as a routing header makes `handle` complete
normally with the datagram dropped silently.  On the code this is false:
`handle` calls `pull_quic_header` with no try/except, so the parse error
propagates to the caller — at the concrete unparseable input below,
`handle` raises instead of completing normally. -/
theorem C1_counterexample :
    handle O0 init (Event.rawData [] (0, 0)) = Except.error PyErr.valueError ∧
    exceptOk (handle O0 init (Event.rawData [] (0, 0))) = false :=
  ⟨rfl, rfl⟩

/-- C1 (amended): for every `RawData` event whose payload fails to parse
as a routing header, the parse error propagates unchanged out of `handle`
(it is not absorbed); no registry entry, session, outbound datagram or
timer is produced, since the raise happens before any mutation. -/
theorem C1_parse_failure_propagates (O : Oracle) (s : ProtoState)
    (data : Bytes) (address : Addr) (e : PyErr)
    (h : O.pullQuicHeader data = .error e) :
    handle O s (.rawData data address) = .error e := by
  simp [handle, h]

/-- Witness for C1 (amended) at a concrete unparseable datagram. -/
theorem C1_parse_failure_propagates_witness :
    handle O0 init (Event.rawData [] (1, 1)) = Except.error PyErr.valueError :=
  C1_parse_failure_propagates O0 init [] (1, 1) PyErr.valueError rfl

/-- C3: for every `RawData` event whose parsed header carries an explicit
version outside the supported set, `handle` completes normally having
appended exactly one outbound datagram, addressed to the datagram's
source address and built by the version-negotiation encoder with the
header's destination id as source id and the header's source id as
destination id; the registry, session map, connection store and timer
list are unchanged (so no entry is created and the engine is never fed,
for every oracle). -/
theorem C3_version_negotiation (O : Oracle) (s : ProtoState) (data : Bytes)
    (address : Addr) (header : Header) (v : Nat)
    (hp : O.pullQuicHeader data = .ok header)
    (hv : header.version = some v)
    (hns : v ∉ O.supportedVersions) :
    handle O s (.rawData data address) =
      .ok { s with sent := s.sent ++
        [(O.encodeVNeg header.destination_cid header.source_cid
            O.supportedVersions, address)] } := by
  have hvu : versionUnsupported O header = true := by
    simp [versionUnsupported, hv, hns]
  simp [handle, hp, hvu]

/-- Witness for C3: a concrete datagram carrying unsupported version 9. -/
theorem C3_version_negotiation_witness :
    handle O0 init (Event.rawData [9] (2, 3)) =
      .ok { init with sent := [([1, 2, 3, 4, 1], (2, 3))] } :=
  C3_version_negotiation O0 init [9] (2, 3) ⟨some 9, [1, 2], [3, 4], 0⟩ 9
    rfl rfl (by decide)

/-- C9: for every `RawData` event with a parseable header, a supported
(or absent) version, a destination identifier absent from the registry
and a non-initial packet type, `handle` returns the state completely
unchanged: no connection is created, the engine is never invoked, nothing
is sent, and registry and session map are untouched. -/
theorem C9_unknown_non_initial_dropped (O : Oracle) (s : ProtoState)
    (data : Bytes) (address : Addr) (header : Header)
    (hp : O.pullQuicHeader data = .ok header)
    (hv : versionUnsupported O header = false)
    (hu : dictGet s.connections header.destination_cid = none)
    (ht : header.packet_type ≠ PACKET_TYPE_INITIAL) :
    handle O s (.rawData data address) = .ok s := by
  simp [handle, hp, hv, handleRawKnown, hu, ht]

/-- Witness for C9: a concrete supported-version non-initial datagram for
an unknown destination identifier. -/
theorem C9_unknown_non_initial_dropped_witness :
    handle O0 init (Event.rawData [2] (2, 3)) = .ok init :=
  C9_unknown_non_initial_dropped O0 init [2] (2, 3)
    ⟨some 1, [1, 2], [3, 4], 0⟩ rfl rfl rfl (by decide)

/-- C8: the registry removal for `ConnectionIdRetired` (`del
self.connections[...]`) raises `KeyError` when the retired identifier is
absent, rather than completing as a no-op, and the error escalates out of
the event dispatcher `handle_events` instead of being absorbed. -/
theorem C8_retire_absent_raises (O : Oracle) (s : ProtoState) (conn : Nat)
    (client : Option Addr) (cid : CID) (rest : List QuicEvent) :
    (∀ (m : List (CID × Nat)) (k : CID), dictGet m k = none →
      dictDel m k = Except.error (PyErr.keyError k)) ∧
    (dictGet s.connections cid = none →
      (getConn s conn).events = QuicEvent.connectionIdRetired cid :: rest →
      handle_events O s conn client = .error (.keyError cid)) := by
  refine ⟨fun m k h => dictDel_absent m k h, fun hu he => ?_⟩
  have hre : handle_event_reaction
      (setConn s conn { getConn s conn with events := rest })
      conn client (QuicEvent.connectionIdRetired cid) =
      .error (.keyError cid) := by
    simp only [handle_event_reaction, setConn_connections]
    rw [dictDel_absent s.connections cid hu]
  have hd : drainLoop O conn client
      (QuicEvent.connectionIdRetired cid :: rest) s = .error (.keyError cid) := by
    simp only [drainLoop]
    rw [hre]
  unfold handle_events
  rw [he, hd]

/-- Witness for C8: retiring the absent identifier `[9, 9]` raises a
`KeyError` that escapes `handle_events`. -/
theorem C8_retire_absent_raises_witness :
    handle_events O0 stBadRetire 0 none = .error (.keyError [9, 9]) :=
  (C8_retire_absent_raises O0 stBadRetire 0 none [9, 9] []).2 rfl rfl

/-- C7: after a drained batch the queued outbound datagrams are flushed
first (`send_all` appends them to the transport log) and only then is the
engine's wake deadline queried, registering exactly one deferred
callback when it is non-none; when the callback fires, a connection with
no active close deadline makes it a strict no-op, while an active
deadline makes it invoke the engine's timer-expiry handling and re-run
the event dispatcher for that connection (which reschedules). -/
theorem C7_timer_schedule (O : Oracle) (s sd : ProtoState) (conn : Nat)
    (client : Option Addr) :
    (drainLoop O conn client (getConn s conn).events s = .ok sd →
      handle_events O s conn client =
        .ok (scheduleTimer (send_all sd conn) conn)) ∧
    ((send_all sd conn).sent = sd.sent ++ (getConn sd conn).datagrams) ∧
    (∀ t, (getConn (send_all sd conn) conn).timer = some t →
      (scheduleTimer (send_all sd conn) conn).timers =
        (send_all sd conn).timers ++ [(t, conn)]) ∧
    ((getConn s conn).close_at = none → handle_timer O s conn = .ok s) ∧
    (∀ u, (getConn s conn).close_at = some u →
      handle_timer O s conn =
        handle_events O (setConn s conn (O.handleTimer (getConn s conn) O.now))
          conn none) := by
  refine ⟨fun h => ?_, rfl, fun t ht => ?_, fun hc => ?_, fun u hc => ?_⟩
  · unfold handle_events
    rw [h]
  · unfold scheduleTimer
    rw [ht]
  · unfold handle_timer
    rw [hc]
  · unfold handle_timer
    rw [hc]

/-- Witness for C7: a concrete connection with a pending wake deadline
and no close deadline. -/
theorem C7_timer_schedule_witness :
    handle_events O0 stTimer 0 none =
      .ok (scheduleTimer (send_all stTimer 0) 0) ∧
    handle_timer O0 stTimer 0 = .ok stTimer :=
  ⟨(C7_timer_schedule O0 stTimer stTimer 0 none).1 rfl,
   (C7_timer_schedule O0 stTimer stTimer 0 none).2.2.2.1 rfl⟩

/-- C5: for every sequence of events drained for a connection (with the
drain completing normally), the dispatcher processes them in emission
order and forwards each to the connection's session exactly when a
session exists at that point — the session that exists afterwards
received exactly the suffix of the drained events starting at the
`ProtocolNegotiated` that created it (that event included), appended to
whatever it had already received, in engine order. -/
theorem C5_session_event_order (O : Oracle) (conn : Nat)
    (client : Option Addr) (evs : List QuicEvent) (s s' : ProtoState)
    (h : drainLoop O conn client evs s = .ok s') :
    (sessGet s'.http_connections conn).map SessionState.log =
      (match lastNegotiatedSuffix evs with
       | some suf => some suf
       | none => (sessGet s.http_connections conn).map
           (fun ss => ss.log ++ evs)) := by
  rw [drain_sess O conn client evs s s' h]
  cases lastNegotiatedSuffix evs with
  | some suf => simp
  | none => cases sessGet s.http_connections conn <;> simp

/-- Witness for C5: the batch `[ProtocolNegotiated, ConnectionIdIssued
[3]]` creates the session and then forwards both events in order. -/
theorem C5_session_event_order_witness :
    (sessGet stW'.http_connections 0).map SessionState.log =
      some [QuicEvent.protocolNegotiated, QuicEvent.connectionIdIssued [3]] :=
  C5_session_event_order O0 0 (some (2, 3))
    [QuicEvent.protocolNegotiated, QuicEvent.connectionIdIssued [3]]
    stW stW' rfl

/-- C2 (counterexample): the claim says a second `ProtocolNegotiated` for
a connection that already has a live session is treated as a logic error
(e.g. a failing assertion) rather than silently replacing the session.
On the code this is false: `self.http_connections[connection] =
H3Protocol(...)` has no assertion — below, a connection with a live
session (client `(9, 9)`, nonempty log) drains a further
`ProtocolNegotiated`, the drain completes normally, and the live session
has been silently replaced by a fresh one. -/
theorem C2_counterexample :
    drainLoop O0 0 none [QuicEvent.protocolNegotiated] stLive =
      Except.ok stLive' ∧
    sessGet stLive.http_connections 0 =
      some ⟨some (9, 9), [QuicEvent.other 7]⟩ ∧
    sessGet stLive'.http_connections 0 =
      some ⟨none, [QuicEvent.protocolNegotiated]⟩ :=
  ⟨rfl, rfl, rfl⟩

/-- C2 (amended): a session exists for a connection after a drain if and
only if one existed before or a `ProtocolNegotiated` event was drained
(so creation happens exactly on `ProtocolNegotiated`); but a second
`ProtocolNegotiated` is not detected as a logic error — the reaction
unconditionally assigns a fresh session, silently replacing any live
one. -/
theorem C2_session_iff (O : Oracle) (conn : Nat) (client : Option Addr)
    (evs : List QuicEvent) (s s' : ProtoState)
    (h : drainLoop O conn client evs s = .ok s') :
    ((sessGet s'.http_connections conn).isSome = true ↔
      ((sessGet s.http_connections conn).isSome = true ∨
        QuicEvent.protocolNegotiated ∈ evs)) ∧
    (∀ t : ProtoState, handle_event_reaction t conn client
        QuicEvent.protocolNegotiated =
      Except.ok { t with
        http_connections := sessInsert t.http_connections conn ⟨client, []⟩ }) := by
  refine ⟨?_, fun t => reaction_neg_eq t conn client⟩
  rw [drain_sess O conn client evs s s' h]
  cases hl : lastNegotiatedSuffix evs with
  | some suf =>
    have hmem : QuicEvent.protocolNegotiated ∈ evs := by
      by_contra hc
      rw [(lastNegotiatedSuffix_eq_none evs).mpr hc] at hl
      exact absurd hl (by simp)
    simp [hmem]
  | none =>
    have hnm := (lastNegotiatedSuffix_eq_none evs).mp hl
    cases sessGet s.http_connections conn <;> simp [hnm]

/-- Witness for C2 (amended) on the concrete duplicate-negotiation run. -/
theorem C2_session_iff_witness :
    (sessGet stLive'.http_connections 0).isSome = true ↔
      ((sessGet stLive.http_connections 0).isSome = true ∨
        QuicEvent.protocolNegotiated ∈ [QuicEvent.protocolNegotiated]) :=
  (C2_session_iff O0 0 none [QuicEvent.protocolNegotiated]
    stLive stLive' rfl).1

/-- C6: for every drained event sequence that completes normally,
starting from a registry with no duplicate keys, the resulting registry
still has no duplicate keys — it never maps one routing identifier to two
different connection handles at the same time (while nothing constrains
how many identifiers map to one handle); moreover the reaction to an
`IdentifierRetired` event only completes when the retired identifier was
previously present, and it removes that entry. -/
theorem C6_registry_invariant (O : Oracle) (conn : Nat)
    (client : Option Addr) (evs : List QuicEvent) (s s' : ProtoState)
    (hn : (dictKeys s.connections).Nodup)
    (h : drainLoop O conn client evs s = .ok s') :
    (dictKeys s'.connections).Nodup ∧
    (∀ k v1 v2, (k, v1) ∈ s'.connections → (k, v2) ∈ s'.connections →
      v1 = v2) ∧
    (∀ (t t1 : ProtoState) (cid : CID),
      (dictKeys t.connections).Nodup →
      handle_event_reaction t conn client
        (QuicEvent.connectionIdRetired cid) = .ok t1 →
      (∃ v, dictGet t.connections cid = some v) ∧
        dictGet t1.connections cid = none) := by
  have hnd := drain_nodup O conn client evs s s' h hn
  refine ⟨hnd, fun k v1 v2 h1 h2 => dictGet_unique _ k v1 v2 hnd h1 h2, ?_⟩
  intro t t1 cid htn hr
  simp only [handle_event_reaction] at hr
  cases hd : dictDel t.connections cid with
  | error err => rw [hd] at hr; exact absurd hr (by simp)
  | ok m =>
    rw [hd] at hr
    simp only [Except.ok.injEq] at hr
    refine ⟨dictDel_ok_get t.connections cid m hd, ?_⟩
    rw [← hr]
    exact dictDel_get_none t.connections m cid htn hd

/-- Witness for C6: issuing `[4]` and then retiring it keeps the registry
keys duplicate-free. -/
theorem C6_registry_invariant_witness :
    (dictKeys stIR'.connections).Nodup :=
  (C6_registry_invariant O0 0 none
    [QuicEvent.connectionIdIssued [4], QuicEvent.connectionIdRetired [4]]
    stIR stIR' (by decide) rfl).1

/-- C4: for every Initial-type datagram with a parseable header and a
supported (or absent) version whose destination identifier is absent from
the registry (and whose freshly created connection gets a host id not
colliding with an existing key), `handle` creates exactly one new
connection handle, inserts exactly two new registry entries — one under
the header's destination identifier, one under the new connection's own
host identifier, both mapping to the new handle — leaves sessions, sent
datagrams and timers untouched at that point, delivers the datagram into
the engine for the new connection, and then runs the event dispatcher on
the resulting state. -/
theorem C4_new_initial_connection (O : Oracle) (s : ProtoState)
    (data : Bytes) (address : Addr) (header : Header)
    (hp : O.pullQuicHeader data = .ok header)
    (hv : versionUnsupported O header = false)
    (hu : dictGet s.connections header.destination_cid = none)
    (ht : header.packet_type = PACKET_TYPE_INITIAL)
    (hhost : (O.newConn s.conns.length).host_cid ≠ header.destination_cid)
    (hhostu : dictGet s.connections (O.newConn s.conns.length).host_cid =
      none) :
    ∃ s₂, handle O s (.rawData data address) =
        handle_events O s₂ s.conns.length (some address) ∧
      s₂.connections = s.connections ++
        [(header.destination_cid, s.conns.length),
         ((O.newConn s.conns.length).host_cid, s.conns.length)] ∧
      s₂.conns = s.conns ++
        [O.receiveDatagram (O.newConn s.conns.length) data address O.now] ∧
      s₂.http_connections = s.http_connections ∧
      s₂.sent = s.sent ∧ s₂.timers = s.timers := by
  refine ⟨setConn
      { s with
        conns := s.conns ++ [O.newConn s.conns.length],
        connections := dictInsert (dictInsert s.connections
            header.destination_cid s.conns.length)
          (O.newConn s.conns.length).host_cid s.conns.length }
      s.conns.length
      (O.receiveDatagram (O.newConn s.conns.length) data address O.now),
    ?_, ?_, ?_, rfl, rfl, rfl⟩
  · have step1 : handle O s (Event.rawData data address) =
        handleRawKnown O s header data address := by
      simp [handle, hp, hv]
    have hgc : getConn
        { s with
          conns := s.conns ++ [O.newConn s.conns.length],
          connections := dictInsert (dictInsert s.connections
              header.destination_cid s.conns.length)
            (O.newConn s.conns.length).host_cid s.conns.length }
        s.conns.length = O.newConn s.conns.length :=
      getD_append_length s.conns (O.newConn s.conns.length) default
    rw [step1]
    unfold handleRawKnown
    simp only [hu, ht, eq_self_iff_true, if_true]
    unfold feed
    rw [hgc]
  · have hg2 : dictGet
        (s.connections ++ [(header.destination_cid, s.conns.length)])
        (O.newConn s.conns.length).host_cid = none := by
      simp only [dictGet_append, hhostu]
      simp [dictGet, Ne.symm hhost]
    show dictInsert (dictInsert s.connections header.destination_cid
        s.conns.length) (O.newConn s.conns.length).host_cid
        s.conns.length = _
    rw [dictInsert_absent s.connections header.destination_cid
        s.conns.length hu,
      dictInsert_absent _ _ _ hg2, List.append_assoc]
    rfl
  · exact set_append_length s.conns (O.newConn s.conns.length) _

/-- Witness for C4: a concrete Initial datagram for the unknown
destination identifier `[1, 2]` creates connection 0 with host id
`[5, 0]` and both registry entries. -/
theorem C4_new_initial_connection_witness :
    ∃ s₂, handle O0 init (Event.rawData [1] (2, 3)) =
        handle_events O0 s₂ 0 (some (2, 3)) ∧
      s₂.connections = [([1, 2], 0), ([5, 0], 0)] ∧
      s₂.conns = [⟨[5, 0], [], [], none, none⟩] ∧
      s₂.http_connections = [] ∧ s₂.sent = [] ∧ s₂.timers = [] :=
  C4_new_initial_connection O0 init [1] (2, 3)
    ⟨some 1, [1, 2], [3, 4], 192⟩ rfl rfl rfl rfl (by decide) rfl

/-- C10: a session that appears during a timer-initiated dispatch batch
is constructed with client address `none`, because `_handle_timer`
re-runs the event dispatcher with no client address; a session that
appears during a datagram-initiated `handle` call is constructed with
the datagram's source address. -/
theorem C10_timer_session_client (O : Oracle) (s s' : ProtoState)
    (conn n : Nat) (sess : SessionState) :
    (handle_timer O s conn = .ok s' →
      sessGet s.http_connections n = none →
      sessGet s'.http_connections n = some sess → sess.client = none) ∧
    (∀ data address, handle O s (.rawData data address) = .ok s' →
      sessGet s.http_connections n = none →
      sessGet s'.http_connections n = some sess →
      sess.client = some address) := by
  constructor
  · intro h hpre hpost
    unfold handle_timer at h
    cases hc : (getConn s conn).close_at with
    | none =>
      simp only [hc, Except.ok.injEq] at h
      rw [← h] at hpost
      rw [hpre] at hpost
      exact absurd hpost (by simp)
    | some u =>
      simp only [hc] at h
      rcases handle_events_client O _ conn none s' h n sess hpost with
        ⟨sess0, hs0, hcl⟩ | hcl
      · have hs0' : sessGet s.http_connections n = some sess0 := hs0
        rw [hpre] at hs0'
        exact absurd hs0' (by simp)
      · exact hcl
  · intro data address h hpre hpost
    unfold handle at h
    cases hpar : O.pullQuicHeader data with
    | error e =>
      simp only [hpar] at h
      exact Except.noConfusion h
    | ok header =>
      simp only [hpar] at h
      by_cases hvu : versionUnsupported O header = true
      · rw [if_pos hvu] at h
        simp only [Except.ok.injEq] at h
        rw [← h] at hpost
        have hpost' : sessGet s.http_connections n = some sess := hpost
        rw [hpre] at hpost'
        exact absurd hpost' (by simp)
      · rw [if_neg hvu] at h
        unfold handleRawKnown at h
        cases hlook : dictGet s.connections header.destination_cid with
        | some cn =>
          simp only [hlook] at h
          unfold feed at h
          rcases handle_events_client O _ cn (some address) s' h n sess
              hpost with ⟨sess0, hs0, hcl⟩ | hcl
          · have hs0' : sessGet s.http_connections n = some sess0 := hs0
            rw [hpre] at hs0'
            exact absurd hs0' (by simp)
          · exact hcl
        | none =>
          simp only [hlook] at h
          by_cases hpt : header.packet_type = PACKET_TYPE_INITIAL
          · rw [if_pos hpt] at h
            unfold feed at h
            rcases handle_events_client O _ s.conns.length (some address)
                s' h n sess hpost with ⟨sess0, hs0, hcl⟩ | hcl
            · have hs0' : sessGet s.http_connections n = some sess0 := hs0
              rw [hpre] at hs0'
              exact absurd hs0' (by simp)
            · exact hcl
          · rw [if_neg hpt] at h
            simp only [Except.ok.injEq] at h
            rw [← h] at hpost
            rw [hpre] at hpost
            exact absurd hpost (by simp)

/-- Witness for C10: firing the timer of `stTimerNeg` creates a session
whose client address is `none`. -/
theorem C10_timer_session_client_witness :
    handle_timer O0 stTimerNeg 0 = .ok stTimerNeg' ∧
    sessGet stTimerNeg'.http_connections 0 =
      some ⟨none, [QuicEvent.protocolNegotiated]⟩ ∧
    (⟨none, [QuicEvent.protocolNegotiated]⟩ : SessionState).client = none :=
  ⟨rfl, rfl,
    (C10_timer_session_client O0 stTimerNeg stTimerNeg' 0 0
      ⟨none, [QuicEvent.protocolNegotiated]⟩).1 rfl rfl rfl⟩

end Hypercorn
